import Mathlib

/-!
Verification of the embedding index subsystem of `vector_store.py`
(`PolicyVectorStore`): corpus loading, index construction, persistence,
reload and nearest-neighbor retrieval.

Modelling conventions:
- Float values are modelled as exact rationals (`ℚ`); every concrete float a
  running program manipulates is a rational, so this is a faithful domain.
- The external embedding model (`SentenceTransformer.encode`) is an external
  collaborator and is modelled as an arbitrary parameter
  `encode : String → List ℚ` applied per text in input order.
- The floating square root used inside `np.linalg.norm` is likewise taken as
  an arbitrary parameter `fsqrt : ℚ → ℚ`; the numerical claims about the
  normalization formula itself are treated separately over `ℝ` with the exact
  `Real.sqrt`.
- The cache directory is modelled as a record holding the parsed content of
  the three artifact files (`embeddings.npz`, `policy_index.index`,
  `metadata.json`), each `Option` to model presence or absence on disk.
- `faiss.IndexFlatL2` performs exact nearest-neighbor search under squared
  Euclidean distance; with `k` larger than the number of stored vectors it
  pads the result arrays with label `-1` and distance `FLT_MAX`.
-/

namespace VectorStore

/-- One line of the JSONL corpus file, by its parse outcome: a blank line
(skipped by `load_jsonl`), a line on which `json.loads` raises
(`JSONDecodeError`), or a parsed JSON object with its optional
`question` / `answer` / `section` string fields. -/
inductive JsonLine
  | blank
  | bad
  | obj (question answer sectionVal : Option String)
deriving DecidableEq

/-- Parsed content of `metadata.json`: the three stored string arrays. -/
structure Metadata where
  questions : List String
  answers : List String
  sections : List String
deriving DecidableEq

/-- Content of a cache directory: the three co-located artifacts
`embeddings.npz`, `policy_index.index`, `metadata.json`. `none` models an
absent file. The FAISS flat index file is modelled by the vectors it stores. -/
structure CacheDir where
  embeddingsFile : Option (List (List ℚ))
  indexFile : Option (List (List ℚ))
  metadataFile : Option Metadata
deriving DecidableEq

/-- In-memory state of a `PolicyVectorStore` instance: the fields set in
`__init__` (`model` is tracked as the boolean `modelLoaded`, since the lazily
loaded model object itself is external). -/
structure Store where
  modelLoaded : Bool
  index : Option (List (List ℚ))
  questions : List String
  answers : List String
  sections : List String
  embeddings : Option (List (List ℚ))
deriving DecidableEq

/-- Decidable equality for `Except`, used to evaluate the model on concrete
inputs. -/
instance {ε α : Type} [DecidableEq ε] [DecidableEq α] : DecidableEq (Except ε α) := fun x y =>
  match x, y with
  | .ok a, .ok b => decidable_of_iff (a = b) (by simp)
  | .error e, .error f => decidable_of_iff (e = f) (by simp)
  | .ok _, .error _ => isFalse (by simp)
  | .error _, .ok _ => isFalse (by simp)

/-- Store state right after `PolicyVectorStore.__init__`. -/
def initStore : Store :=
  { modelLoaded := false
    index := none
    questions := []
    answers := []
    sections := []
    embeddings := none }

/-- One retrieval result dictionary as built by `retrieve`. -/
structure QueryResult where
  question : String
  answer : String
  sectionVal : String
  distance : ℚ
  rank : ℕ
deriving DecidableEq

/-- Model of `load_jsonl` (`vector_store.py` lines 38-47): blank lines are
skipped, a line that fails `json.loads` aborts with `JSONDecodeError`, every
other line contributes its parsed object in file order. -/
def load_jsonl : List JsonLine → Except String (List (Option String × Option String × Option String))
  | [] => .ok []
  | JsonLine.blank :: rest => load_jsonl rest
  | JsonLine.bad :: _ => .error "JSONDecodeError"
  | JsonLine.obj q a s :: rest =>
    match load_jsonl rest with
    | .error e => .error e
    | .ok rows => .ok ((q, a, s) :: rows)

/-- The per-item filter of `build_index` (lines 109-113): keep exactly the
parsed objects that have both a `question` and an `answer` field, in file
order, reading `section` with default value `Unknown`. -/
def usableRecords (rows : List (Option String × Option String × Option String)) :
    List (String × String × String) :=
  rows.filterMap (fun r =>
    match r.1, r.2.1 with
    | some q, some a => some (q, a, r.2.2.getD "Unknown")
    | _, _ => none)

/-- Epsilon floor used by the normalization at lines 135 and 195 (`1e-12`). -/
def EPS : ℚ := 1 / 10 ^ 12

/-- Squared L2 norm of a vector (the sum under `np.linalg.norm`). -/
def sqnormQ (v : List ℚ) : ℚ := (v.map (fun x => x ^ 2)).sum

/-- Row normalization of lines 135 and 195: divide each coordinate by the
row's L2 norm plus `1e-12`. `fsqrt` stands for the external floating square
root inside `np.linalg.norm`. -/
def normalizeRowQ (fsqrt : ℚ → ℚ) (v : List ℚ) : List ℚ :=
  v.map (fun x => x / (fsqrt (sqnormQ v) + EPS))

/-- Largest finite `float32` value; `faiss` pads missing search results with
this distance when `k` exceeds the number of stored vectors. -/
def FLT_MAX : ℚ := 340282346638528859811704183484516925440

/-- Squared Euclidean distance between two vectors, the metric of
`faiss.IndexFlatL2`. -/
def l2sq (u v : List ℚ) : ℚ := ((u.zip v).map (fun p => (p.1 - p.2) ^ 2)).sum

/-- Ordered insertion of an (index, distance) pair: ascending distance, ties
by ascending index (the stable order of a flat FAISS index). -/
def insertPair (x : ℤ × ℚ) : List (ℤ × ℚ) → List (ℤ × ℚ)
  | [] => [x]
  | y :: ys =>
    if x.2 < y.2 ∨ (x.2 = y.2 ∧ x.1 ≤ y.1) then x :: y :: ys else y :: insertPair x ys

/-- Sort (index, distance) pairs by ascending distance, ties by index. -/
def sortByDist : List (ℤ × ℚ) → List (ℤ × ℚ)
  | [] => []
  | x :: xs => insertPair x (sortByDist xs)

/-- Model of `faiss.IndexFlatL2.search` on a single query row: exact squared
L2 distances to all stored vectors, the `k` smallest in ascending order, and,
when `k` exceeds the number of stored vectors, padding with label `-1` and
distance `FLT_MAX`. -/
def faissSearch (xb : List (List ℚ)) (q : List ℚ) (k : ℕ) : List (ℤ × ℚ) :=
  let dists := xb.enum.map (fun p => ((p.1 : ℤ), l2sq q p.2))
  let top := (sortByDist dists).take k
  top ++ List.replicate (k - top.length) ((-1 : ℤ), FLT_MAX)

/-- Python list subscript `l[i]` for signed `i`, with negative indices
counting from the end; out-of-range access yields a default (unreachable on
the code paths exercised here, where FAISS labels are always at least `-1`). -/
def pyGet (l : List String) (i : ℤ) : String :=
  if 0 ≤ i then l.getD i.toNat "" else l.getD (l.length - i.natAbs) ""

/-- Field update common to `load_index` (lines 170-176) and the cached branch
of `build_index` (lines 91-97): populate embeddings, index and the three
metadata arrays from the three artifacts. -/
def applyCache (emb iv : List (List ℚ)) (md : Metadata) (store : Store) : Store :=
  { store with
    embeddings := some emb
    index := some iv
    questions := md.questions
    answers := md.answers
    sections := md.sections }

/-- Fresh-build branch of `build_index` (lines 101-156): parse the corpus,
keep records having both `question` and `answer`, fail when none remain,
embed each question with a `passage: ` tag, normalize rows, build the flat
index, and write all three artifacts. The boolean in the result records that
the embedding model was invoked. -/
def buildFresh (encode : String → List ℚ) (fsqrt : ℚ → ℚ) (lines : List JsonLine)
    (store : Store) : Except String (Store × CacheDir × Bool) :=
  match load_jsonl lines with
  | .error e => .error e
  | .ok rows =>
    let recs := usableRecords rows
    if recs.isEmpty then .error "ValueError: no QA pairs found in policies file"
    else
      let qs := recs.map (fun r => r.1)
      let ans := recs.map (fun r => r.2.1)
      let ss := recs.map (fun r => r.2.2)
      let raw := qs.map (fun q => encode ("passage: " ++ q))
      let embs := raw.map (normalizeRowQ fsqrt)
      .ok ({ store with
             modelLoaded := true
             questions := qs
             answers := ans
             sections := ss
             embeddings := some embs
             index := some embs },
           { embeddingsFile := some embs
             indexFile := some embs
             metadataFile := some ⟨qs, ans, ss⟩ },
           true)

/-- Model of `PolicyVectorStore.build_index` (lines 74-156): fail when the
policies file is absent; when all three cache artifacts exist, load them and
return without reading the corpus, without calling the embedding model and
without writing (the returned `CacheDir` is unchanged, the boolean is
`false`); otherwise run the fresh build. -/
def build_index (encode : String → List ℚ) (fsqrt : ℚ → ℚ)
    (policiesFile : Option (List JsonLine)) (cache : CacheDir) (store : Store) :
    Except String (Store × CacheDir × Bool) :=
  match policiesFile with
  | none => .error "FileNotFoundError: policies file not found"
  | some lines =>
    if h : cache.embeddingsFile.isSome ∧ cache.indexFile.isSome ∧ cache.metadataFile.isSome then
      .ok (applyCache (cache.embeddingsFile.get h.1) (cache.indexFile.get h.2.1)
             (cache.metadataFile.get h.2.2) store, cache, false)
    else
      buildFresh encode fsqrt lines store

/-- Model of `PolicyVectorStore.load_index` (lines 158-177): raise
`FileNotFoundError` unless all three artifacts exist, otherwise populate
embeddings, index and the metadata arrays from them. The existence check
happens before any field assignment, so a failing call leaves the store
untouched. -/
def load_index (cache : CacheDir) (store : Store) : Except String Store :=
  if h : cache.embeddingsFile.isSome ∧ cache.indexFile.isSome ∧ cache.metadataFile.isSome then
    .ok (applyCache (cache.embeddingsFile.get h.1) (cache.indexFile.get h.2.1)
           (cache.metadataFile.get h.2.2) store)
  else .error "FileNotFoundError: index files not found"

/-- Model of `PolicyVectorStore.save_index` (lines 179-181): the method only
prints a message; it touches neither the store fields nor the cache
directory. The returned triple is the unchanged store, the unchanged cache
and the printed text. -/
def save_index (store : Store) (cache : CacheDir) : Store × CacheDir × String :=
  (store, cache, "Index is already saved")

/-- Model of `PolicyVectorStore.retrieve` (lines 183-212): fail when no index
is loaded; embed the query with a `query: ` tag, normalize, search the flat
index, and keep, in enumeration order, every hit whose label is below
`len(self.questions)` (Python compares the signed FAISS label, so the `-1`
padding labels pass this test and index from the end of the lists), attaching
the 1-based enumeration rank. -/
def retrieve (encode : String → List ℚ) (fsqrt : ℚ → ℚ) (store : Store)
    (query : String) (top_k : ℕ) : Except String (List QueryResult) :=
  match store.index with
  | none => .error "ValueError: index not loaded"
  | some xb =>
    let qv := normalizeRowQ fsqrt (encode ("query: " ++ query))
    let hits := faissSearch xb qv top_k
    .ok (hits.enum.filterMap (fun p =>
      if p.2.1 < (store.questions.length : ℤ) then
        some { question := pyGet store.questions p.2.1
               answer := pyGet store.answers p.2.1
               sectionVal := pyGet store.sections p.2.1
               distance := p.2.2
               rank := p.1 + 1 }
      else none))

/-- Entry formatting of `get_context_for_query` (line 228). -/
def fmtEntry (r : QueryResult) : String :=
  "Q: " ++ r.question ++ "\nA: " ++ r.answer ++ "\n[From: " ++ r.sectionVal ++ "]"

/-- Accumulation loop of `get_context_for_query` (lines 223-232): walk the
results in order with the running total of entry lengths, stop (`break`) at
the first entry whose addition would push the total past `maxLen`. -/
def buildParts (maxLen : ℤ) : List QueryResult → ℤ → List String
  | [], _ => []
  | r :: rs, total =>
    let t := fmtEntry r
    if total + (t.length : ℤ) > maxLen then []
    else t :: buildParts maxLen rs (total + (t.length : ℤ))

/-- Model of `PolicyVectorStore.get_context_for_query` (lines 214-234):
return the empty string when `retrieve` raises, otherwise join the collected
entries with blank lines. -/
def get_context_for_query (encode : String → List ℚ) (fsqrt : ℚ → ℚ) (store : Store)
    (query : String) (maxLen : ℤ) (top_k : ℕ) : String :=
  match retrieve encode fsqrt store query top_k with
  | .error _ => ""
  | .ok results => String.intercalate "\n\n" (buildParts maxLen results 0)

/-- Greedy selection as the spec words it: append entries in rank order while
the next entry still fits the remaining budget, stop before the first entry
that does not. Used to compare `get_context_for_query` against the spec. -/
def specGreedy (budget : ℤ) : List String → List String
  | [] => []
  | t :: ts =>
    if (t.length : ℤ) ≤ budget then t :: specGreedy (budget - (t.length : ℤ)) ts else []

/-- Sum of the lengths of a list of strings, as an integer. -/
def sumLens (l : List String) : ℤ := (l.map (fun s => (s.length : ℤ))).sum

/-- Projection of a `build_index` result onto the resulting store. -/
def okStore : Except String (Store × CacheDir × Bool) → Option Store
  | .ok (s, _, _) => some s
  | .error _ => none

/-- Cache directory with no artifact present. -/
def emptyCache : CacheDir := ⟨none, none, none⟩

/-- Concrete instantiation of the external embedding model for closed
evaluations: every text embeds to the one-dimensional vector `[1]`. -/
def encodeA : String → List ℚ := fun _ => [1]

/-- Concrete instantiation of the external floating square root for closed
evaluations. -/
def fsqrtA : ℚ → ℚ := fun x => x

/-- One-line corpus holding a single usable record. -/
def oneLineCorpus : List JsonLine :=
  [JsonLine.obj (some "Can I bring a pet?") (some "Yes, pets allowed.") (some "Pets")]

/-- Metadata artifact whose three arrays have different lengths. -/
def mismatchMeta : Metadata := ⟨["q1"], [], ["s1"]⟩

/-- Cache directory holding all three artifacts, with length-mismatched
metadata arrays. -/
def mismatchCache : CacheDir := ⟨some [[1]], some [[1]], some mismatchMeta⟩

/-- Cache directory holding three consistent artifacts. -/
def fullCache : CacheDir := ⟨some [[2]], some [[2]], some ⟨["q"], ["a"], ["s"]⟩⟩

/-- Parsed objects of a corpus with no JSON-malformed line, in file order:
what `load_jsonl` returns on such a corpus. -/
def goodRows : List JsonLine → List (Option String × Option String × Option String)
  | [] => []
  | JsonLine.blank :: rest => goodRows rest
  | JsonLine.bad :: rest => goodRows rest
  | JsonLine.obj q a s :: rest => (q, a, s) :: goodRows rest

/-- Corpus with a blank line, a parsed line missing the `answer` field and one
fully usable line. -/
def skipCorpus : List JsonLine :=
  [JsonLine.blank, JsonLine.obj (some "q0") none none,
   JsonLine.obj (some "q1") (some "a1") (some "s1")]

/-- Embedding matrix produced by the fresh build over `oneLineCorpus` with
`encodeA` and `fsqrtA`: the single vector `[1]` normalized. -/
def builtEmb : List (List ℚ) := [[10 ^ 12 / (10 ^ 12 + 1)]]

/-- Store produced by the fresh build over `oneLineCorpus` with `encodeA` and
`fsqrtA`. -/
def builtStore : Store :=
  { modelLoaded := true
    index := some builtEmb
    questions := ["Can I bring a pet?"]
    answers := ["Yes, pets allowed."]
    sections := ["Pets"]
    embeddings := some builtEmb }

/-- Cache directory written by the fresh build over `oneLineCorpus`. -/
def builtCache : CacheDir :=
  ⟨some builtEmb, some builtEmb,
   some ⟨["Can I bring a pet?"], ["Yes, pets allowed."], ["Pets"]⟩⟩

/-- Sum of squares of the entries of a real vector (the sum inside
`np.linalg.norm` on one row). -/
noncomputable def sqsumR (v : List ℝ) : ℝ := (v.map (fun x => x ^ 2)).sum

/-- Epsilon floor `1e-12` of the normalization, over the reals. -/
noncomputable def EPSR : ℝ := 1 / 10 ^ 12

/-- L2 norm of a real vector, as computed by `np.linalg.norm` on one row;
the numerical content of lines 135 and 195 is analyzed over `ℝ` with the
exact square root. -/
noncomputable def l2norm (v : List ℝ) : ℝ := Real.sqrt (sqsumR v)

/-- Model over `ℝ` of line 135: row-wise normalization of the stored
embedding matrix, each row divided by its L2 norm plus `1e-12`. -/
noncomputable def normalizeBuild (m : List (List ℝ)) : List (List ℝ) :=
  m.map (fun row => row.map (fun x => x / (l2norm row + EPSR)))

/-- Model over `ℝ` of line 195: normalization of the `1×d` query matrix,
the same formula applied to the single row. -/
noncomputable def normalizeQuery (v : List ℝ) : List ℝ :=
  v.map (fun x => x / (l2norm v + EPSR))

/-- Building from `oneLineCorpus` into an empty cache takes the fresh path
and produces `builtStore` and `builtCache`. -/
theorem build_oneline :
    build_index encodeA fsqrtA (some oneLineCorpus) emptyCache initStore =
      .ok (builtStore, builtCache, true) := by
  norm_num [build_index, buildFresh, load_jsonl, usableRecords, oneLineCorpus, emptyCache,
    encodeA, fsqrtA, normalizeRowQ, sqnormQ, EPS, builtStore, builtCache, builtEmb, initStore,
    List.filterMap_cons, List.filterMap_nil, Function.comp]

/-- C1: on an index built from a single record, `retrieve` with `top_k = 5`
returns five results, not `min(5, 1) = 1`: FAISS pads the missing slots with
label `-1` and distance `FLT_MAX`, the guard `idx < len(self.questions)`
accepts `-1`, and Python negative indexing maps every padded slot to the one
stored record, so the caller sees the single record five times with ranks 1
through 5. This contradicts the specified result length `min(k, N)`; the
in-code comment `Valid index` shows the guard was meant to reject the padded
labels. -/
theorem retrieve_single_record_top5_returns_five :
    build_index encodeA fsqrtA (some oneLineCorpus) emptyCache initStore =
      .ok (builtStore, builtCache, true) ∧
    (retrieve encodeA fsqrtA builtStore "pet policy" 5).map
      (fun rs => (rs.length, rs.map QueryResult.rank, rs.map QueryResult.answer)) =
    .ok (5, [1, 2, 3, 4, 5], List.replicate 5 "Yes, pets allowed.") := by
  constructor
  · exact build_oneline
  · norm_num [retrieve, builtStore, builtEmb, encodeA, fsqrtA, normalizeRowQ, sqnormQ, EPS,
      faissSearch, sortByDist, insertPair, l2sq, pyGet, List.enum, List.enumFrom,
      List.filterMap_cons, List.filterMap_nil, Except.map, List.replicate, FLT_MAX]

/-- C2: `load_index` fails with the not-found error as soon as one of the
three artifacts is absent — the check precedes every field assignment, so the
failing call returns the error without producing any populated store — and
when all three artifacts are present it populates embeddings, index and the
three metadata arrays from them. -/
theorem load_index_all_or_nothing (cache : CacheDir) (store : Store) :
    ((cache.embeddingsFile = none ∨ cache.indexFile = none ∨ cache.metadataFile = none) →
      load_index cache store = .error "FileNotFoundError: index files not found") ∧
    (∀ (emb iv : List (List ℚ)) (md : Metadata),
      cache.embeddingsFile = some emb → cache.indexFile = some iv →
      cache.metadataFile = some md →
      load_index cache store = .ok (applyCache emb iv md store)) := by
  obtain ⟨ef, vf, mf⟩ := cache
  constructor
  · intro h
    rcases h with h | h | h <;> subst h <;> simp [load_index]
  · intro emb iv md h1 h2 h3
    subst h1; subst h2; subst h3
    simp [load_index]

/-- C2 witness: a cache missing every artifact makes `load_index` fail, and a
complete cache populates the store from the three artifacts. -/
theorem load_index_all_or_nothing_witness :
    load_index emptyCache initStore = .error "FileNotFoundError: index files not found" ∧
    load_index fullCache initStore = .ok (applyCache [[2]] [[2]] ⟨["q"], ["a"], ["s"]⟩ initStore) :=
  ⟨(load_index_all_or_nothing emptyCache initStore).1 (Or.inl rfl),
   (load_index_all_or_nothing fullCache initStore).2 [[2]] [[2]] ⟨["q"], ["a"], ["s"]⟩ rfl rfl rfl⟩

/-- C3 counterexample: with all three artifacts present but metadata arrays
of different lengths (one question, zero answers, one section), `load_index`
succeeds and returns the length-mismatched store instead of failing. -/
theorem load_index_mismatched_metadata_accepted :
    (load_index mismatchCache initStore).map
      (fun s => (s.questions.length, s.answers.length, s.sections.length)) = .ok (1, 0, 1) := by
  norm_num [load_index, mismatchCache, mismatchMeta, applyCache, initStore, Except.map]

/-- C3 amended: `load_index` performs no consistency check on the metadata
arrays; whenever all three artifacts are present it populates the engine with
the arrays exactly as stored, even when their lengths disagree. -/
theorem load_index_populates_without_length_check (cache : CacheDir) (store : Store)
    (emb iv : List (List ℚ)) (md : Metadata)
    (h1 : cache.embeddingsFile = some emb) (h2 : cache.indexFile = some iv)
    (h3 : cache.metadataFile = some md)
    (_hmm : md.questions.length ≠ md.answers.length) :
    load_index cache store = .ok (applyCache emb iv md store) := by
  obtain ⟨ef, vf, mf⟩ := cache
  subst h1; subst h2; subst h3
  simp [load_index]

/-- C3 amended witness: the length-mismatched cache loads successfully. -/
theorem load_index_populates_without_length_check_witness :
    load_index mismatchCache initStore = .ok (applyCache [[1]] [[1]] mismatchMeta initStore) :=
  load_index_populates_without_length_check mismatchCache initStore [[1]] [[1]] mismatchMeta
    rfl rfl rfl (by simp [mismatchMeta])

/-- C4: when all three artifacts exist, `build_index` takes the load path: it
populates the store from the cached artifacts and returns the cache directory
unchanged with the no-recompute flag; the result does not depend on the
corpus content or on the embedding model (no corpus read, no encode call);
and a run that recomputes (flag `true`) can only happen when at least one
artifact is missing. -/
theorem build_index_cache_wins (encode : String → List ℚ) (fsqrt : ℚ → ℚ)
    (lines : List JsonLine) (cache : CacheDir) (store : Store)
    (emb iv : List (List ℚ)) (md : Metadata)
    (h1 : cache.embeddingsFile = some emb) (h2 : cache.indexFile = some iv)
    (h3 : cache.metadataFile = some md) :
    build_index encode fsqrt (some lines) cache store =
      .ok (applyCache emb iv md store, cache, false) ∧
    (∀ (encode2 : String → List ℚ) (fsqrt2 : ℚ → ℚ) (lines2 : List JsonLine),
      build_index encode2 fsqrt2 (some lines2) cache store =
        build_index encode fsqrt (some lines) cache store) ∧
    (∀ (cache2 : CacheDir) (s : Store) (c : CacheDir),
      build_index encode fsqrt (some lines) cache2 store = .ok (s, c, true) →
      cache2.embeddingsFile = none ∨ cache2.indexFile = none ∨ cache2.metadataFile = none) := by
  obtain ⟨ef, vf, mf⟩ := cache
  subst h1; subst h2; subst h3
  refine ⟨?_, ?_, ?_⟩
  · simp [build_index]
  · intro encode2 fsqrt2 lines2
    simp [build_index]
  · intro cache2 s c h
    obtain ⟨ef2, vf2, mf2⟩ := cache2
    cases ef2 <;> cases vf2 <;> cases mf2 <;> simp_all [build_index]

/-- C4 witness: a second `build_index` against a complete cache loads the
cached artifacts, leaves the cache unchanged and sets no recompute flag. -/
theorem build_index_cache_wins_witness :
    build_index encodeA fsqrtA (some oneLineCorpus) fullCache initStore =
      .ok (applyCache [[2]] [[2]] ⟨["q"], ["a"], ["s"]⟩ initStore, fullCache, false) :=
  (build_index_cache_wins encodeA fsqrtA oneLineCorpus fullCache initStore
    [[2]] [[2]] ⟨["q"], ["a"], ["s"]⟩ rfl rfl rfl).1

/-- C10: `save_index` is a pure no-op apart from its printed message: it
returns the store and the cache directory exactly as given, for every store
state and cache directory. -/
theorem save_index_is_noop (store : Store) (cache : CacheDir) :
    save_index store cache = (store, cache, "Index is already saved") := rfl

/-- On a corpus with no JSON-malformed line, `load_jsonl` succeeds with the
parsed objects in file order. -/
theorem load_jsonl_of_no_bad (lines : List JsonLine) (h : JsonLine.bad ∉ lines) :
    load_jsonl lines = .ok (goodRows lines) := by
  induction lines with
  | nil => rfl
  | cons l rest ih =>
    cases l with
    | blank => simp_all [load_jsonl, goodRows]
    | bad => simp_all
    | obj q a s => simp_all [load_jsonl, goodRows]

/-- On a corpus containing a JSON-malformed line, `load_jsonl` raises. -/
theorem load_jsonl_of_bad (lines : List JsonLine) (h : JsonLine.bad ∈ lines) :
    load_jsonl lines = .error "JSONDecodeError" := by
  induction lines with
  | nil => cases h
  | cons l rest ih =>
    cases l with
    | blank => simp_all [load_jsonl]
    | bad => rfl
    | obj q a s => simp_all [load_jsonl]

/-- When at least one artifact is missing, `build_index` takes the fresh
build path. -/
theorem build_index_fresh_of_missing (encode : String → List ℚ) (fsqrt : ℚ → ℚ)
    (lines : List JsonLine) (cache : CacheDir) (store : Store)
    (hc : cache.embeddingsFile = none ∨ cache.indexFile = none ∨ cache.metadataFile = none) :
    build_index encode fsqrt (some lines) cache store = buildFresh encode fsqrt lines store := by
  obtain ⟨ef, vf, mf⟩ := cache
  rcases hc with h | h | h <;> subst h <;> simp [build_index]

/-- C5 counterexample: a corpus holding one JSON-malformed line followed by
one fully usable line makes `build_index` abort with the parse error instead
of skipping the malformed line and indexing the remaining record. -/
theorem build_index_aborts_on_malformed_line :
    build_index encodeA fsqrtA
      (some [JsonLine.bad, JsonLine.obj (some "q") (some "a") none]) emptyCache initStore =
    .error "JSONDecodeError" := by
  norm_num [build_index, buildFresh, load_jsonl, emptyCache]

/-- C5 amended: on the fresh path a JSON-malformed line aborts the build with
the parse error; on a corpus whose lines all parse, blank lines and lines
lacking a `question` or `answer` field are skipped silently, the remaining
records are indexed in file order, and the empty-corpus error is raised
exactly when no line yields both fields. -/
theorem build_index_skips_only_fieldless_lines (encode : String → List ℚ) (fsqrt : ℚ → ℚ)
    (lines : List JsonLine) (cache : CacheDir) (store : Store)
    (hc : cache.embeddingsFile = none ∨ cache.indexFile = none ∨ cache.metadataFile = none) :
    (JsonLine.bad ∈ lines →
      build_index encode fsqrt (some lines) cache store = .error "JSONDecodeError") ∧
    (JsonLine.bad ∉ lines →
      (usableRecords (goodRows lines) = [] →
        build_index encode fsqrt (some lines) cache store =
          .error "ValueError: no QA pairs found in policies file") ∧
      (usableRecords (goodRows lines) ≠ [] →
        build_index encode fsqrt (some lines) cache store =
          .ok ({ store with
                 modelLoaded := true
                 questions := (usableRecords (goodRows lines)).map (fun r => r.1)
                 answers := (usableRecords (goodRows lines)).map (fun r => r.2.1)
                 sections := (usableRecords (goodRows lines)).map (fun r => r.2.2)
                 embeddings := some (((usableRecords (goodRows lines)).map (fun r => r.1)).map
                   (fun q => normalizeRowQ fsqrt (encode ("passage: " ++ q))))
                 index := some (((usableRecords (goodRows lines)).map (fun r => r.1)).map
                   (fun q => normalizeRowQ fsqrt (encode ("passage: " ++ q)))) },
               { embeddingsFile := some (((usableRecords (goodRows lines)).map (fun r => r.1)).map
                   (fun q => normalizeRowQ fsqrt (encode ("passage: " ++ q))))
                 indexFile := some (((usableRecords (goodRows lines)).map (fun r => r.1)).map
                   (fun q => normalizeRowQ fsqrt (encode ("passage: " ++ q))))
                 metadataFile := some ⟨(usableRecords (goodRows lines)).map (fun r => r.1),
                   (usableRecords (goodRows lines)).map (fun r => r.2.1),
                   (usableRecords (goodRows lines)).map (fun r => r.2.2)⟩ },
               true))) := by
  rw [build_index_fresh_of_missing encode fsqrt lines cache store hc]
  constructor
  · intro hbad
    unfold buildFresh
    rw [load_jsonl_of_bad lines hbad]
  · intro hgood
    constructor
    · intro hempty
      unfold buildFresh
      rw [load_jsonl_of_no_bad lines hgood]
      simp [hempty]
    · intro hne
      unfold buildFresh
      rw [load_jsonl_of_no_bad lines hgood]
      simp [hne, List.map_map, Function.comp]

/-- C5 amended witness: a corpus with a blank line, a line lacking `answer`
and one usable line builds an index over exactly the usable record. -/
theorem build_index_skips_only_fieldless_lines_witness :
    build_index encodeA fsqrtA (some skipCorpus) emptyCache initStore =
      .ok ({ initStore with
             modelLoaded := true
             questions := (usableRecords (goodRows skipCorpus)).map (fun r => r.1)
             answers := (usableRecords (goodRows skipCorpus)).map (fun r => r.2.1)
             sections := (usableRecords (goodRows skipCorpus)).map (fun r => r.2.2)
             embeddings := some (((usableRecords (goodRows skipCorpus)).map (fun r => r.1)).map
               (fun q => normalizeRowQ fsqrtA (encodeA ("passage: " ++ q))))
             index := some (((usableRecords (goodRows skipCorpus)).map (fun r => r.1)).map
               (fun q => normalizeRowQ fsqrtA (encodeA ("passage: " ++ q)))) },
           { embeddingsFile := some (((usableRecords (goodRows skipCorpus)).map (fun r => r.1)).map
               (fun q => normalizeRowQ fsqrtA (encodeA ("passage: " ++ q))))
             indexFile := some (((usableRecords (goodRows skipCorpus)).map (fun r => r.1)).map
               (fun q => normalizeRowQ fsqrtA (encodeA ("passage: " ++ q))))
             metadataFile := some ⟨(usableRecords (goodRows skipCorpus)).map (fun r => r.1),
               (usableRecords (goodRows skipCorpus)).map (fun r => r.2.1),
               (usableRecords (goodRows skipCorpus)).map (fun r => r.2.2)⟩ },
           true) :=
  ((build_index_skips_only_fieldless_lines encodeA fsqrtA skipCorpus emptyCache initStore
      (Or.inl rfl)).2 (by decide)).2 (by decide)

/-- C6 counterexample: `build_index` against a complete cache directory whose
metadata arrays disagree in length succeeds and leaves the store with one
question, zero answers, one section and one stored vector, so a successful
`build_index` does not guarantee the four counts agree. -/
theorem build_index_cached_mismatch_accepted :
    (okStore (build_index encodeA fsqrtA (some oneLineCorpus) mismatchCache initStore)).map
      (fun s => (s.questions.length, s.answers.length, s.sections.length,
        (s.index.getD []).length)) = some (1, 0, 1, 1) := by
  norm_num [build_index, mismatchCache, mismatchMeta, applyCache, initStore, okStore]

/-- C6 amended: after every successful `build_index` that takes the fresh
build path (some cache artifact missing), the questions, answers and sections
arrays and the stored vectors all have the same length, and entry `i` of each
is the corresponding field of the `i`-th usable corpus record; on the cache
path the artifacts are copied into the store without any consistency check. -/
theorem build_index_fresh_lengths_aligned (encode : String → List ℚ) (fsqrt : ℚ → ℚ)
    (lines : List JsonLine) (cache : CacheDir) (store s : Store) (c : CacheDir) (flag : Bool)
    (hc : cache.embeddingsFile = none ∨ cache.indexFile = none ∨ cache.metadataFile = none)
    (h : build_index encode fsqrt (some lines) cache store = .ok (s, c, flag)) :
    s.questions.length = s.answers.length ∧ s.answers.length = s.sections.length ∧
    (∃ xb, s.index = some xb ∧ s.embeddings = some xb ∧
      xb.length = s.questions.length) ∧
    (∃ rows, load_jsonl lines = .ok rows ∧
      s.questions = (usableRecords rows).map (fun r => r.1) ∧
      s.answers = (usableRecords rows).map (fun r => r.2.1) ∧
      s.sections = (usableRecords rows).map (fun r => r.2.2)) := by
  rw [build_index_fresh_of_missing encode fsqrt lines cache store hc] at h
  unfold buildFresh at h
  cases hl : load_jsonl lines with
  | error e => rw [hl] at h; cases h
  | ok rows =>
    rw [hl] at h
    by_cases hempty : (usableRecords rows).isEmpty
    · simp [hempty] at h
    · simp only [hempty, Bool.false_eq_true, if_false, Except.ok.injEq, Prod.mk.injEq] at h
      obtain ⟨hs, -, -⟩ := h
      subst hs
      refine ⟨by simp, by simp, ⟨_, rfl, rfl, by simp⟩, ⟨rows, rfl, by simp, by simp, by simp⟩⟩

/-- C6 amended witness: the fresh build over the one-line corpus satisfies
the alignment invariant. -/
theorem build_index_fresh_lengths_aligned_witness :
    builtStore.questions.length = builtStore.answers.length ∧
    builtStore.answers.length = builtStore.sections.length ∧
    (∃ xb, builtStore.index = some xb ∧ builtStore.embeddings = some xb ∧
      xb.length = builtStore.questions.length) ∧
    (∃ rows, load_jsonl oneLineCorpus = .ok rows ∧
      builtStore.questions = (usableRecords rows).map (fun r => r.1) ∧
      builtStore.answers = (usableRecords rows).map (fun r => r.2.1) ∧
      builtStore.sections = (usableRecords rows).map (fun r => r.2.2)) :=
  build_index_fresh_lengths_aligned encodeA fsqrtA oneLineCorpus emptyCache initStore
    builtStore builtCache true (Or.inl rfl) build_oneline

/-- Retrieval results depend on the store only through its index and its
three metadata arrays. -/
theorem retrieve_congr (encode : String → List ℚ) (fsqrt : ℚ → ℚ) (s1 s2 : Store)
    (q : String) (k : ℕ) (hi : s1.index = s2.index) (hq : s1.questions = s2.questions)
    (ha : s1.answers = s2.answers) (hs : s1.sections = s2.sections) :
    retrieve encode fsqrt s1 q k = retrieve encode fsqrt s2 q k := by
  unfold retrieve
  rw [hi, hq, ha, hs]

/-- `load_index` on a cache directory with all three artifacts present
populates the target store from them. -/
theorem load_index_full (emb iv : List (List ℚ)) (md : Metadata) (store : Store) :
    load_index ⟨some emb, some iv, some md⟩ store = .ok (applyCache emb iv md store) := by
  simp [load_index]

/-- Round-trip property for the fresh build path: the cache directory written
by `buildFresh` loads back, into any store, exactly the fields of the built
store. -/
theorem roundtrip_of_buildFresh (encode : String → List ℚ) (fsqrt : ℚ → ℚ)
    (lines : List JsonLine) (store store2 s : Store) (c : CacheDir) (flag : Bool)
    (q : String) (k : ℕ)
    (h : buildFresh encode fsqrt lines store = .ok (s, c, flag)) :
    ∃ s2, load_index c store2 = .ok s2 ∧
      s2.embeddings = s.embeddings ∧ s2.index = s.index ∧ s2.questions = s.questions ∧
      s2.answers = s.answers ∧ s2.sections = s.sections ∧
      retrieve encode fsqrt s2 q k = retrieve encode fsqrt s q k := by
  unfold buildFresh at h
  cases hl : load_jsonl lines with
  | error e => rw [hl] at h; cases h
  | ok rows =>
    rw [hl] at h
    by_cases hempty : (usableRecords rows).isEmpty
    · simp [hempty] at h
    · simp only [hempty, Bool.false_eq_true, if_false, Except.ok.injEq, Prod.mk.injEq] at h
      obtain ⟨hs, hcache, -⟩ := h
      subst hs
      subst hcache
      refine ⟨_, load_index_full _ _ _ store2, ?_, ?_, ?_, ?_, ?_, ?_⟩
      · simp [applyCache]
      · simp [applyCache]
      · simp [applyCache]
      · simp [applyCache]
      · simp [applyCache]
      · exact retrieve_congr encode fsqrt _ _ q k (by simp [applyCache])
          (by simp [applyCache]) (by simp [applyCache]) (by simp [applyCache])

/-- C8: after any successful `build_index` (fresh or cached), loading the
produced cache directory into any store reproduces exactly the same
embedding matrix, index vectors and metadata arrays, and therefore the same
`retrieve` results for every query. In this exact-rational model the
round-trip is bit-for-bit. -/
theorem build_then_load_roundtrip (encode : String → List ℚ) (fsqrt : ℚ → ℚ)
    (policies : Option (List JsonLine)) (cache : CacheDir) (store store2 s : Store)
    (c : CacheDir) (flag : Bool) (q : String) (k : ℕ)
    (h : build_index encode fsqrt policies cache store = .ok (s, c, flag)) :
    ∃ s2, load_index c store2 = .ok s2 ∧
      s2.embeddings = s.embeddings ∧ s2.index = s.index ∧ s2.questions = s.questions ∧
      s2.answers = s.answers ∧ s2.sections = s.sections ∧
      retrieve encode fsqrt s2 q k = retrieve encode fsqrt s q k := by
  cases policies with
  | none => cases h
  | some lines =>
    obtain ⟨ef, vf, mf⟩ := cache
    cases ef with
    | some emb =>
      cases vf with
      | some iv =>
        cases mf with
        | some md =>
          simp only [build_index, Option.isSome_some, and_self, dif_pos, Except.ok.injEq,
            Prod.mk.injEq] at h
          obtain ⟨hs, hcache, -⟩ := h
          subst hs
          subst hcache
          refine ⟨applyCache emb iv md store2, load_index_full emb iv md store2,
            ?_, ?_, ?_, ?_, ?_, ?_⟩
          · simp [applyCache]
          · simp [applyCache]
          · simp [applyCache]
          · simp [applyCache]
          · simp [applyCache]
          · exact retrieve_congr encode fsqrt _ _ q k (by simp [applyCache])
              (by simp [applyCache]) (by simp [applyCache]) (by simp [applyCache])
        | none =>
          rw [build_index_fresh_of_missing encode fsqrt lines _ store
            (Or.inr (Or.inr rfl))] at h
          exact roundtrip_of_buildFresh encode fsqrt lines store store2 s c flag q k h
      | none =>
        rw [build_index_fresh_of_missing encode fsqrt lines _ store
          (Or.inr (Or.inl rfl))] at h
        exact roundtrip_of_buildFresh encode fsqrt lines store store2 s c flag q k h
    | none =>
      rw [build_index_fresh_of_missing encode fsqrt lines _ store (Or.inl rfl)] at h
      exact roundtrip_of_buildFresh encode fsqrt lines store store2 s c flag q k h

/-- C8 witness: the cache written by the one-line fresh build loads back into
a fresh store with the same fields and identical retrieval results. -/
theorem build_then_load_roundtrip_witness :
    load_index builtCache initStore =
      .ok (applyCache builtEmb builtEmb
        ⟨["Can I bring a pet?"], ["Yes, pets allowed."], ["Pets"]⟩ initStore) ∧
    retrieve encodeA fsqrtA
      (applyCache builtEmb builtEmb
        ⟨["Can I bring a pet?"], ["Yes, pets allowed."], ["Pets"]⟩ initStore) "pet" 2 =
      retrieve encodeA fsqrtA builtStore "pet" 2 := by
  obtain ⟨s2, h1, -, -, -, -, -, h7⟩ :=
    build_then_load_roundtrip encodeA fsqrtA (some oneLineCorpus) emptyCache initStore
      initStore builtStore builtCache true "pet" 2 build_oneline
  simp only [builtCache] at h1
  rw [load_index_full] at h1
  injection h1 with h1
  subst h1
  exact ⟨by simp only [builtCache]; exact load_index_full _ _ _ _, h7⟩

/-- Sum of string lengths distributes over cons. -/
theorem sumLens_cons (t : String) (l : List String) :
    sumLens (t :: l) = (t.length : ℤ) + sumLens l := by
  simp [sumLens]

/-- The accumulator loop of `get_context_for_query` computes the greedy
selection with the remaining budget. -/
theorem buildParts_eq_specGreedy (maxLen : ℤ) (rs : List QueryResult) (total : ℤ) :
    buildParts maxLen rs total = specGreedy (maxLen - total) (rs.map fmtEntry) := by
  induction rs generalizing total with
  | nil => simp [buildParts, specGreedy]
  | cons r rest ih =>
    show (if total + ((fmtEntry r).length : ℤ) > maxLen then []
      else fmtEntry r :: buildParts maxLen rest (total + ((fmtEntry r).length : ℤ))) = _
    rw [List.map_cons]
    show _ = (if ((fmtEntry r).length : ℤ) ≤ maxLen - total then
      fmtEntry r :: specGreedy (maxLen - total - ((fmtEntry r).length : ℤ)) (rest.map fmtEntry)
      else [])
    by_cases hcond : total + ((fmtEntry r).length : ℤ) > maxLen
    · have hneg : ¬ ((fmtEntry r).length : ℤ) ≤ maxLen - total := by omega
      rw [if_pos hcond, if_neg hneg]
    · have hpos : ((fmtEntry r).length : ℤ) ≤ maxLen - total := by omega
      rw [if_neg hcond, if_pos hpos, ih]
      have harith : maxLen - (total + ((fmtEntry r).length : ℤ)) =
          maxLen - total - ((fmtEntry r).length : ℤ) := by omega
      rw [harith]

/-- The greedy selection keeps a prefix of its input: the entries come in
order with none skipped, every kept entry fits the budget, and the selection
stops exactly before the first entry whose addition would exceed it. -/
theorem specGreedy_take (budget : ℤ) (l : List String) :
    ∃ j, specGreedy budget l = l.take j ∧ j ≤ l.length ∧
      (j = 0 ∨ sumLens (l.take j) ≤ budget) ∧
      (j = l.length ∨ budget < sumLens (l.take (j + 1))) := by
  induction l generalizing budget with
  | nil => exact ⟨0, rfl, by simp, Or.inl rfl, Or.inl rfl⟩
  | cons t ts ih =>
    by_cases hfit : (t.length : ℤ) ≤ budget
    · obtain ⟨j, hEq, hle, hsum, hstop⟩ := ih (budget - (t.length : ℤ))
      refine ⟨j + 1, ?_, by simpa using hle, Or.inr ?_, ?_⟩
      · rw [List.take_succ_cons, ← hEq]
        simp [specGreedy, hfit]
      · rw [List.take_succ_cons, sumLens_cons]
        rcases hsum with h0 | hs
        · subst h0
          simpa [sumLens] using hfit
        · omega
      · rcases hstop with h | h
        · exact Or.inl (by simp [h])
        · refine Or.inr ?_
          rw [List.take_succ_cons, sumLens_cons]
          omega
    · refine ⟨0, ?_, by simp, Or.inl rfl, Or.inr ?_⟩
      · simp [specGreedy, hfit]
      · rw [List.take_succ_cons, List.take_zero, sumLens_cons]
        simp only [sumLens, List.map_nil, List.sum_nil]
        omega

/-- C9: `get_context_for_query` returns the empty string whenever the inner
`retrieve` fails, and otherwise joins exactly the greedy selection of the
formatted entries in rank order; the greedy selection is always a prefix of
the formatted results (no entry is skipped or truncated), its total length
fits the limit, and it stops exactly before the first entry whose addition
would exceed the limit. The accumulated length counts entry characters, as
the source does (the two-character joiners are not counted). -/
theorem get_context_greedy (encode : String → List ℚ) (fsqrt : ℚ → ℚ) (store : Store)
    (query : String) (maxLen : ℤ) (k : ℕ) :
    get_context_for_query encode fsqrt store query maxLen k =
      (match retrieve encode fsqrt store query k with
       | .error _ => ""
       | .ok rs => String.intercalate "\n\n" (specGreedy maxLen (rs.map fmtEntry))) ∧
    (∀ l : List String, ∃ j, specGreedy maxLen l = l.take j ∧ j ≤ l.length ∧
      (j = 0 ∨ sumLens (l.take j) ≤ maxLen) ∧
      (j = l.length ∨ maxLen < sumLens (l.take (j + 1)))) := by
  constructor
  · unfold get_context_for_query
    cases retrieve encode fsqrt store query k with
    | error e => rfl
    | ok rs =>
      show String.intercalate "\n\n" (buildParts maxLen rs 0) =
        String.intercalate "\n\n" (specGreedy maxLen (rs.map fmtEntry))
      rw [buildParts_eq_specGreedy, sub_zero]
  · intro l
    exact specGreedy_take maxLen l

/-- Sum of squares of a cons. -/
theorem sqsumR_cons (x : ℝ) (xs : List ℝ) : sqsumR (x :: xs) = x ^ 2 + sqsumR xs := by
  simp [sqsumR]

/-- A sum of squares is nonnegative. -/
theorem sqsumR_nonneg (v : List ℝ) : 0 ≤ sqsumR v := by
  induction v with
  | nil => simp [sqsumR]
  | cons x xs ih =>
    rw [sqsumR_cons]
    exact add_nonneg (sq_nonneg x) ih

/-- The L2 norm is nonnegative. -/
theorem l2norm_nonneg (v : List ℝ) : 0 ≤ l2norm v := Real.sqrt_nonneg _

/-- The epsilon floor is positive, so the normalization denominator never
vanishes. -/
theorem EPSR_pos : (0 : ℝ) < EPSR := by norm_num [EPSR]

/-- Dividing every entry divides the sum of squares by the square. -/
theorem sqsumR_map_div (v : List ℝ) (d : ℝ) :
    sqsumR (v.map (fun x => x / d)) = sqsumR v / d ^ 2 := by
  induction v with
  | nil => simp [sqsumR]
  | cons x xs ih =>
    rw [List.map_cons, sqsumR_cons, sqsumR_cons, ih]
    ring

/-- Scaling a vector by `1/d` for positive `d` scales its L2 norm by `1/d`. -/
theorem l2norm_map_div (v : List ℝ) (d : ℝ) (hd : 0 < d) :
    l2norm (v.map (fun x => x / d)) = l2norm v / d := by
  unfold l2norm
  rw [sqsumR_map_div, Real.sqrt_div (sqsumR_nonneg v), Real.sqrt_sq hd.le]

/-- The L2 norm of a normalized query vector in closed form. -/
theorem l2norm_normalizeQuery (v : List ℝ) :
    l2norm (normalizeQuery v) = l2norm v / (l2norm v + EPSR) := by
  have hd : 0 < l2norm v + EPSR := by
    have h1 := l2norm_nonneg v
    have h2 := EPSR_pos
    linarith
  unfold normalizeQuery
  exact l2norm_map_div v _ hd

/-- C7 counterexample: the nonzero vector `[1e-6]` normalizes to a vector
whose L2 norm is about `1 - 1e-6`, which is not within `1e-12` of `1`, so
the as-stated claim fails for nonzero vectors of small norm. -/
theorem normalized_small_vector_not_unit :
    ¬ |l2norm (normalizeQuery [(1 : ℝ) / 10 ^ 6]) - 1| ≤ EPSR := by
  have hpos : (0 : ℝ) < 1 / 10 ^ 6 := by norm_num
  have hN : l2norm [(1 : ℝ) / 10 ^ 6] = 1 / 10 ^ 6 := by
    unfold l2norm
    rw [sqsumR_cons]
    simp only [sqsumR, List.map_nil, List.sum_nil, add_zero]
    exact Real.sqrt_sq hpos.le
  have hval : l2norm (normalizeQuery [(1 : ℝ) / 10 ^ 6]) = 10 ^ 6 / (10 ^ 6 + 1) := by
    rw [l2norm_normalizeQuery, hN]
    norm_num [EPSR]
  rw [hval]
  rw [show ((10 : ℝ) ^ 6 / (10 ^ 6 + 1) - 1) = -(1 / (10 ^ 6 + 1)) by norm_num]
  rw [abs_neg, abs_of_pos (by positivity)]
  norm_num [EPSR]

/-- C7 amended: every stored row and every query vector is divided by its L2
norm plus `1e-12`, identically at build time and query time; the denominator
is always positive, so an all-zero vector maps to the all-zero vector with no
division error; the resulting norm equals `‖v‖ / (‖v‖ + ε)`, which is within
`ε` of `1.0` whenever `‖v‖ ≥ 1 - ε` — but not for every nonzero vector. -/
theorem normalization_formula_properties (v : List ℝ) (n : ℕ) :
    0 < l2norm v + EPSR ∧
    l2norm (normalizeQuery v) = l2norm v / (l2norm v + EPSR) ∧
    (1 - EPSR ≤ l2norm v → |l2norm (normalizeQuery v) - 1| ≤ EPSR) ∧
    normalizeQuery (List.replicate n 0) = List.replicate n 0 ∧
    normalizeBuild [v] = [normalizeQuery v] := by
  have hN := l2norm_nonneg v
  have hε := EPSR_pos
  have hd : 0 < l2norm v + EPSR := by linarith
  refine ⟨hd, l2norm_normalizeQuery v, ?_, ?_, ?_⟩
  · intro hbig
    rw [l2norm_normalizeQuery v]
    have key : l2norm v / (l2norm v + EPSR) - 1 = -(EPSR / (l2norm v + EPSR)) := by
      field_simp
    rw [key, abs_neg, abs_of_nonneg (div_nonneg hε.le hd.le), div_le_iff₀ hd]
    have h1 : (1 : ℝ) ≤ l2norm v + EPSR := by linarith
    nlinarith
  · simp [normalizeQuery, List.map_replicate, zero_div]
  · simp [normalizeBuild, normalizeQuery]

/-- C7 amended witness: the unit vector `[1]` has norm at least `1 - ε` and
normalizes to a vector of norm within `ε` of `1`. -/
theorem normalization_formula_properties_witness :
    1 - EPSR ≤ l2norm [(1 : ℝ)] ∧ |l2norm (normalizeQuery [(1 : ℝ)]) - 1| ≤ EPSR := by
  have h1 : l2norm [(1 : ℝ)] = 1 := by
    unfold l2norm
    rw [sqsumR_cons]
    simp only [sqsumR, List.map_nil, List.sum_nil, add_zero, one_pow]
    exact Real.sqrt_one
  constructor
  · rw [h1]
    norm_num [EPSR]
  · exact (normalization_formula_properties [(1 : ℝ)] 0).2.2.1 (by rw [h1]; norm_num [EPSR])

end VectorStore
